import Mathlib

/-!
Verification of the GitGenie statistics/allocation core (`GitGenie.py`).

The embedding below translates the persistent-statistics data model
(`RepositoryStatistics`), the streak state machine (`update_commit_streak`),
the commit recorder (`add_commit`), the loader (`load_stats`), the
complexity scorer (`calculate_file_complexity`) and the batch scheduler
(`process_repositories` together with `reset_changes` invocations) into
executable Lean definitions.

Modelling conventions:
- Python dicts become insertion-ordered association lists (`alFind`/`alInsert`
  mirror dict lookup and "create-or-overwrite in place, append new keys").
- A parsed `datetime` is a `Timestamp` carrying the calendar date as a day
  number (days since 1970-01-01, so date subtraction in days is integer
  subtraction, exactly `(current_date - last_date).days`) plus the hour
  component used by `active_hours`.  `weekday()` (Monday = 0) is derived
  from the day number; 1970-01-01 was a Thursday (weekday 3).
- Floats in the complexity score become exact rationals (`0.1 = 1/10`,
  `1.5 = 3/2`); the concrete values involved are exactly representable.
- `random.randint(1, m)` and `random.sample` become explicit oracles passed
  as function arguments; theorems that need the randint contract assume the
  oracle stays within its bounds.
- File-system reads become an explicit outcome type (`ReadOutcome`);
  uncaught Python exceptions become `Except.error`.
-/

namespace GitGenie

/-- A parsed `'%Y-%m-%d %H:%M:%S'` timestamp: calendar date as a day number
(days since 1970-01-01) together with its hour component. -/
structure Timestamp where
  day : Int
  hour : Nat
deriving DecidableEq

/-- The value at key `file_path` of a per-repository `files` dict entry. -/
structure FileStats where
  commits : Nat
  last_modified : Option Timestamp
  changes_per_month : List (String × Nat)
  complexity_score : ℚ
deriving DecidableEq

/-- The value at key `repo_path` of the `repositories` dict. -/
structure RepoStats where
  total_commits : Nat
  files : List (String × FileStats)
  last_commit : Option Timestamp
  commit_types : List (String × Nat)
  active_hours : List Nat
  active_days : List Nat
deriving DecidableEq

/-- The `commit_streaks` sub-document: `last_commit_date` is the stored
`'%Y-%m-%d'` date as a day number, or `none` for JSON `null`. -/
structure CommitStreaks where
  current : Nat
  longest : Nat
  last_commit_date : Option Int
deriving DecidableEq

/-- The whole `self.stats` document. `commit_history`, `developer_patterns`,
`most_active_times` and `file_complexity` are created empty and never touched
by the core operations, exactly as in the source. -/
structure Stats where
  repositories : List (String × RepoStats)
  total_commits : Nat
  commit_history : List String
  developer_patterns : List (String × Nat)
  most_active_times : List (String × Nat)
  file_complexity : List (String × ℚ)
  commit_streaks : CommitStreaks
deriving DecidableEq

/-- `{'current': 0, 'longest': 0, 'last_commit_date': None}`. -/
def initCommitStreaks : CommitStreaks :=
  { current := 0, longest := 0, last_commit_date := none }

/-- The fresh structure built by `load_stats` when the file is absent. -/
def initStats : Stats :=
  { repositories := [], total_commits := 0, commit_history := [],
    developer_patterns := [], most_active_times := [], file_complexity := [],
    commit_streaks := initCommitStreaks }

/-- Outcome of trying to open and parse `repository_stats.json`. -/
inductive ReadOutcome where
  | found (s : Stats)
  | missing
  | unreadable
  | malformed

/-- `load_stats`: `try: json.load ... except FileNotFoundError: <defaults>`.
Only the missing-file case is caught; an unreadable file (`OSError`) or
invalid JSON (`json.JSONDecodeError`) propagates out of the constructor. -/
def load_stats : ReadOutcome → Except String Stats
  | .found s => Except.ok s
  | .missing => Except.ok initStats
  | .unreadable => Except.error "OSError"
  | .malformed => Except.error "JSONDecodeError"

/-- Dict lookup: first binding of the key, if any. -/
def alFind {α : Type} (l : List (String × α)) (k : String) : Option α :=
  match l with
  | [] => none
  | (k', v) :: rest => if k' = k then some v else alFind rest k

/-- Dict write `d[k] = v`: overwrite in place if present, append otherwise
(CPython dicts preserve insertion order). -/
def alInsert {α : Type} (l : List (String × α)) (k : String) (v : α) :
    List (String × α) :=
  match l with
  | [] => [(k, v)]
  | (k', v') :: rest =>
    if k' = k then (k', v) :: rest else (k', v') :: alInsert rest k v

/-- `l[i] += 1` on a Python list (out-of-range indices cannot occur for the
well-formed 24/7 arrays the program builds). -/
def incrAt (l : List Nat) (i : Nat) : List Nat :=
  l.set i (l.getD i 0 + 1)

/-- `datetime.weekday()` (Monday = 0) of the timestamp's date. -/
def weekdayOf (t : Timestamp) : Nat := ((t.day + 3).emod 7).toNat

/-- The zeroed repository entry created on first sight of a repository. -/
def defaultRepoStats : RepoStats :=
  { total_commits := 0, files := [], last_commit := none, commit_types := [],
    active_hours := List.replicate 24 0, active_days := List.replicate 7 0 }

/-- The zeroed file entry created on first sight of a file. -/
def defaultFileStats : FileStats :=
  { commits := 0, last_modified := none, changes_per_month := [],
    complexity_score := 0 }

/-- `update_commit_streak`: the streak state machine.  `d` is the commit's
calendar date; `days_diff = d - last`.  Note that `longest` is only raised in
the `days_diff == 1` branch, and that when `days_diff` is neither `1` nor
`> 1` (same day, or a backdated commit) the counters are untouched while
`last_commit_date` is still overwritten with `d`. -/
def update_commit_streak (s : CommitStreaks) (d : Int) : CommitStreaks :=
  match s.last_commit_date with
  | none =>
    { s with current := 1, last_commit_date := some d }
  | some last =>
    if d - last = 1 then
      { s with current := s.current + 1,
               longest := max s.longest (s.current + 1),
               last_commit_date := some d }
    else if d - last > 1 then
      { s with current := 1, last_commit_date := some d }
    else
      { s with last_commit_date := some d }

/-- `add_commit(repo_path, file_path, commit_type, timestamp)` without the
final `save_stats` (see `add_commit_store`).  Faithfully: create-or-fetch the
repository entry, bump its totals, create-or-fetch the file entry, bump its
totals, bump the hour/weekday buckets, bump the global total, update the
streaks.  `commit_type` is accepted and never used, exactly as in the source
(`commit_types`, `changes_per_month` and `complexity_score` are only ever
initialised, never written). -/
def add_commit (st : Stats) (repo_path file_path commit_type : String)
    (ts : Timestamp) : Stats :=
  let rs0 := (alFind st.repositories repo_path).getD defaultRepoStats
  let rs1 := { rs0 with total_commits := rs0.total_commits + 1,
                        last_commit := some ts }
  let fs0 := (alFind rs1.files file_path).getD defaultFileStats
  let fs1 := { fs0 with commits := fs0.commits + 1,
                        last_modified := some ts }
  let rs2 := { rs1 with
    files := alInsert rs1.files file_path fs1,
    active_hours := incrAt rs1.active_hours ts.hour,
    active_days := incrAt rs1.active_days (weekdayOf ts) }
  { st with
    repositories := alInsert st.repositories repo_path rs2,
    total_commits := st.total_commits + 1,
    commit_streaks := update_commit_streak st.commit_streaks ts.day }

/-- The statistics object together with the persisted JSON document
(`none` = no file on disk). -/
structure Store where
  stats : Stats
  file : Option Stats
deriving DecidableEq

/-- `save_stats`: full-document overwrite of the persisted file. -/
def save_stats (s : Store) : Store := { s with file := some s.stats }

/-- `add_commit` including its trailing `self.save_stats()`. -/
def add_commit_store (s : Store) (repo_path file_path commit_type : String)
    (ts : Timestamp) : Store :=
  save_stats { s with stats := add_commit s.stats repo_path file_path commit_type ts }

/-- Fold a sequence of `add_commit` calls over a store. -/
def applyCommits (st : Stats)
    (calls : List (String × String × String × Timestamp)) : Stats :=
  calls.foldl (fun s c => add_commit s c.1 c.2.1 c.2.2.1 c.2.2.2) st

/-- Fold a sequence of streak updates (one per commit date). -/
def applyStreakDates (s : CommitStreaks) (ds : List Int) : CommitStreaks :=
  ds.foldl update_commit_streak s

/-! ### `calculate_file_complexity`

The source counts, over the file's content string:
`len(content.splitlines())`, and the non-overlapping occurrences of the
regexes `def\s+\w+\s*\(`, `class\s+\w+\s*[:\(]`, `\s+if\s+` and
`\s+(for|while)\s+` (ASCII reading of `\s`/`\w`).  Because in each pattern
every repeatable character class is disjoint from the class that follows it,
Python's backtracking matcher is equivalent to the maximal-munch scanners
below, and `re.findall` counting is the usual leftmost non-overlapping scan:
try a match at each position, on success resume right after the match. -/

/-- Python ASCII `\w`: `[a-zA-Z0-9_]`. -/
def isWordChar (c : Char) : Bool := c.isAlphanum || c == '_'

/-- Python ASCII `\s`: `[ \t\n\r\f\v]`. -/
def isSpaceChar (c : Char) : Bool :=
  c == ' ' || c == '\t' || c == '\n' || c == '\r' || c == '\x0B' || c == '\x0C'

/-- `\s+` (greedy): requires at least one space, consumes all of them. -/
def afterSpaces1 : List Char → Option (List Char)
  | [] => none
  | c :: cs => if isSpaceChar c then some (cs.dropWhile isSpaceChar) else none

/-- `\w+` (greedy): requires at least one word char, consumes all of them. -/
def afterWord1 : List Char → Option (List Char)
  | [] => none
  | c :: cs => if isWordChar c then some (cs.dropWhile isWordChar) else none

/-- One attempted match of `def\s+\w+\s*\(` at the head of the list;
returns the rest of the input after the match. -/
def matchDefAt (l : List Char) : Option (List Char) :=
  match l with
  | 'd' :: 'e' :: 'f' :: rest =>
    match afterSpaces1 rest with
    | none => none
    | some r1 =>
      match afterWord1 r1 with
      | none => none
      | some r2 =>
        match r2.dropWhile isSpaceChar with
        | '(' :: r3 => some r3
        | _ => none
  | _ => none

/-- One attempted match of `class\s+\w+\s*[:\(]` at the head of the list. -/
def matchClassAt (l : List Char) : Option (List Char) :=
  match l with
  | 'c' :: 'l' :: 'a' :: 's' :: 's' :: rest =>
    match afterSpaces1 rest with
    | none => none
    | some r1 =>
      match afterWord1 r1 with
      | none => none
      | some r2 =>
        match r2.dropWhile isSpaceChar with
        | ':' :: r3 => some r3
        | '(' :: r3 => some r3
        | _ => none
  | _ => none

/-- One attempted match of `\s+if\s+` at the head of the list. -/
def matchIfAt (l : List Char) : Option (List Char) :=
  match afterSpaces1 l with
  | none => none
  | some r1 =>
    match r1 with
    | 'i' :: 'f' :: r2 => afterSpaces1 r2
    | _ => none

/-- One attempted match of `\s+(for|while)\s+` at the head of the list
(alternatives tried in source order). -/
def matchLoopAt (l : List Char) : Option (List Char) :=
  match afterSpaces1 l with
  | none => none
  | some r1 =>
    match r1 with
    | 'f' :: 'o' :: 'r' :: r2 => afterSpaces1 r2
    | 'w' :: 'h' :: 'i' :: 'l' :: 'e' :: r2 => afterSpaces1 r2
    | _ => none

/-- `len(re.findall(pat, content))`: leftmost non-overlapping match count.
Every matcher above consumes at least one character on success, so fuel equal
to the input length (see `countMatches`) never runs out before the scan is
done; the `0`-fuel row is unreachable. -/
def countMatchesAux (m : List Char → Option (List Char)) :
    Nat → List Char → Nat
  | 0, _ => 0
  | fuel + 1, l =>
    match m l with
    | some r => 1 + countMatchesAux m fuel r
    | none =>
      match l with
      | [] => 0
      | _ :: cs => countMatchesAux m fuel cs

/-- Count of leftmost non-overlapping matches of a pattern in the content. -/
def countMatches (m : List Char → Option (List Char)) (l : List Char) : Nat :=
  countMatchesAux m l.length l

/-- `complexity['functions']`. -/
def countFunctions (l : List Char) : Nat := countMatches matchDefAt l

/-- `complexity['classes']`. -/
def countClasses (l : List Char) : Nat := countMatches matchClassAt l

/-- `complexity['conditionals']`. -/
def countConditionals (l : List Char) : Nat := countMatches matchIfAt l

/-- `complexity['loops']`. -/
def countLoops (l : List Char) : Nat := countMatches matchLoopAt l

/-- A line-break character for `str.splitlines()`. -/
def isLineBreak (c : Char) : Bool :=
  c == '\n' || c == '\r' || c == '\x0B' || c == '\x0C' ||
  c == '\x1C' || c == '\x1D' || c == '\x1E' || c == '\x85' ||
  c == '\u2028' || c == '\u2029'

/-- Helper for `countLines`: the flag records whether an unterminated line is
open (has at least one character since the last break). -/
def countLinesAux : List Char → Bool → Nat
  | [], openLine => if openLine then 1 else 0
  | '\r' :: '\n' :: cs, _ => 1 + countLinesAux cs false
  | c :: cs, _ =>
    if isLineBreak c then 1 + countLinesAux cs false
    else countLinesAux cs true

/-- `len(content.splitlines())`. -/
def countLines (l : List Char) : Nat := countLinesAux l false

/-- `calculate_file_complexity`: `none` is an unreadable file (any exception
while opening/reading returns `0`); otherwise the weighted sum
`lines*0.1 + functions*2 + classes*3 + conditionals*1.5 + loops*2`. -/
def calculate_file_complexity : Option (List Char) → ℚ
  | none => 0
  | some content =>
    (countLines content : ℚ) * (1 / 10) +
    (countFunctions content : ℚ) * 2 +
    (countClasses content : ℚ) * 3 +
    (countConditionals content : ℚ) * (3 / 2) +
    (countLoops content : ℚ) * 2

/-! ### `process_repositories`

The batch scheduler.  Interactive prompts, `random.sample`, `random.randint`
and the external git collaborators (`check_access`, `git_commit`,
`reset_changes`) become explicit parameters/oracles.  The function's
observable outcome is collected in `BatchResult`: whether the batch aborted
with "no available repositories", how many commits succeeded
(`changes_made`), the `processed_repos` list (one entry per successful
commit), and the repositories on which `reset_changes` is invoked (one
invocation per element of `set(processed_repos)`).  Note the source never
calls `add_commit` from this function, so the statistics store is not part
of the batch outcome. -/

structure BatchResult where
  aborted : Bool
  changesMade : Nat
  processedRepos : List String
  resets : List String
deriving DecidableEq

/-- The budget loop of `process_repositories` (commit-control mode), for the
slots still to fill: the last slot takes everything that remains; any earlier
slot draws `randint(1, min(remaining - slots_after, remaining - 1))`, or is
skipped (`continue`, i.e. 0 commits) when that upper bound is `<= 0`.
`rand i lo hi` is the oracle for the `i`-th `randint(lo, hi)` call. -/
def allocLoop (rand : Nat → Int → Int → Int) :
    Nat → Int → Nat → List Int
  | 0, _, _ => []
  | 1, remaining, _ => [remaining]
  | (k + 2), remaining, idx =>
    if min (remaining - ((k : Int) + 1)) (remaining - 1) ≤ 0 then
      0 :: allocLoop rand (k + 1) remaining (idx + 1)
    else
      rand idx 1 (min (remaining - ((k : Int) + 1)) (remaining - 1)) ::
        allocLoop rand (k + 1)
          (remaining - rand idx 1 (min (remaining - ((k : Int) + 1)) (remaining - 1)))
          (idx + 1)

/-- The per-repository commit counts drawn from a caller-specified total
(the spec's `splitTotal`). -/
def splitTotal (rand : Nat → Int → Int → Int) (total : Int) (n : Nat) :
    List Int :=
  allocLoop rand n total 0

/-- The inner `for j in range(count)` loop of one repository: each successful
`git_commit` appends `repo_path` to `processed_repos` (and bumps
`changes_made`); the first failure `break`s out.  Returns the appended
entries.  `gitCommit repo j` is the success verdict of the `j`-th attempt. -/
def repoSuccesses (gitCommit : String → Nat → Bool) (repo : String) :
    Nat → Nat → List String
  | 0, _ => []
  | n + 1, j =>
    if gitCommit repo j then repo :: repoSuccesses gitCommit repo n (j + 1)
    else []

/-- Run the allocated counts over the selected repositories in order,
collecting `processed_repos`. -/
def execRepos (gitCommit : String → Nat → Bool) :
    List (String × Int) → List String
  | [] => []
  | (repo, cnt) :: rest =>
    repoSuccesses gitCommit repo cnt.toNat 0 ++ execRepos gitCommit rest

/-- `process_repositories`.  `checkAccess` is the `git push --dry-run`
predicate; `sample` models `random.sample(available_repos, randint(1, N))`;
`useCommitControl` is the "да" answer to the commit-count prompt with
`totalCommitInput` the entered total; `randomCounts i` models the i-th
`calculate_commits()` draw in the random mode; `keepChanges` is the "да"
answer to the keep prompt.  When every candidate fails the access check the
function logs "Нет доступных репозиториев" and returns before any commit is
attempted (`aborted := true`). -/
def processRepositories (checkAccess : String → Bool)
    (sample : List String → List String)
    (rand : Nat → Int → Int → Int)
    (randomCounts : Nat → Nat)
    (gitCommit : String → Nat → Bool)
    (useCommitControl : Bool) (totalCommitInput : Int) (keepChanges : Bool)
    (repositories : List String) : BatchResult :=
  let available := repositories.filter checkAccess
  if available.isEmpty then
    { aborted := true, changesMade := 0, processedRepos := [], resets := [] }
  else
    let selected := sample available
    let counts : List Int :=
      if useCommitControl then splitTotal rand totalCommitInput selected.length
      else (List.range selected.length).map fun i => (randomCounts i : Int)
    let processed := execRepos gitCommit (selected.zip counts)
    let resets :=
      if 0 < processed.length then
        if keepChanges then [] else processed.dedup
      else []
    { aborted := false, changesMade := processed.length,
      processedRepos := processed, resets := resets }

/-- A 10-line content snapshot with exactly one counted function definition
and no counted classes, conditionals or loops. -/
def exampleContent : List Char := "def f(\na\na\na\na\na\na\na\na\na\n".toList

/-- Well-formedness of the time-bucket arrays: every repository entry carries
its 24 hour buckets and 7 weekday buckets.  Every store the program builds
satisfies this (entries are created from `[0]*24` / `[0]*7` and only updated
pointwise). -/
def WFStats (st : Stats) : Prop :=
  ∀ p ∈ st.repositories,
    p.2.active_hours.length = 24 ∧ p.2.active_days.length = 7

/-! ### Association-list and array-update lemmas -/

theorem alFind_alInsert_self {α : Type} (l : List (String × α)) (k : String)
    (v : α) : alFind (alInsert l k v) k = some v := by
  induction l with
  | nil => simp [alInsert, alFind]
  | cons p rest ih =>
    obtain ⟨k', v'⟩ := p
    by_cases h : k' = k
    · simp [alInsert, alFind, h]
    · simp [alInsert, alFind, h, ih]

theorem alFind_alInsert_ne {α : Type} (l : List (String × α)) (k k' : String)
    (v : α) (h : k' ≠ k) : alFind (alInsert l k v) k' = alFind l k' := by
  have hne : ¬ k = k' := fun hk => h hk.symm
  induction l with
  | nil => simp [alInsert, alFind, hne]
  | cons p rest ih =>
    obtain ⟨k₀, v₀⟩ := p
    by_cases h0 : k₀ = k
    · subst h0
      simp [alInsert, alFind, hne]
    · simp [alInsert, alFind, h0, ih]

theorem alFind_mem {α : Type} (l : List (String × α)) (k : String) (v : α)
    (h : alFind l k = some v) : (k, v) ∈ l := by
  induction l with
  | nil => simp [alFind] at h
  | cons p rest ih =>
    obtain ⟨k₀, v₀⟩ := p
    by_cases h0 : k₀ = k
    · subst h0
      simp [alFind] at h
      simp [h]
    · simp [alFind, h0] at h
      exact List.mem_cons_of_mem _ (ih h)

theorem mem_alInsert {α : Type} (l : List (String × α)) (k : String) (v : α)
    (q : String × α) (h : q ∈ alInsert l k v) : q ∈ l ∨ q.2 = v := by
  induction l with
  | nil =>
    simp [alInsert] at h
    simp [h]
  | cons p rest ih =>
    obtain ⟨k₀, v₀⟩ := p
    by_cases h0 : k₀ = k
    · simp [alInsert, h0] at h
      rcases h with h | h
      · right; simp [h]
      · left; exact List.mem_cons_of_mem _ h
    · simp [alInsert, h0] at h
      rcases h with h | h
      · left; simp [h]
      · rcases ih h with h' | h'
        · left; exact List.mem_cons_of_mem _ h'
        · right; exact h'

theorem incrAt_length (l : List Nat) (i : Nat) :
    (incrAt l i).length = l.length := by
  simp [incrAt]

theorem incrAt_getD (l : List Nat) (i : Nat) (h : i < l.length) :
    (incrAt l i).getD i 0 = l.getD i 0 + 1 := by
  induction l generalizing i with
  | nil => simp at h
  | cons a t ih =>
    cases i with
    | zero => simp [incrAt]
    | succ j =>
      have hj : j < t.length := by simpa using h
      simpa [incrAt, List.getD] using ih j hj

theorem weekdayOf_lt (t : Timestamp) : weekdayOf t < 7 := by
  have h2 : (t.day + 3).emod 7 < 7 := Int.emod_lt_of_pos _ (by decide)
  have h3 := (Int.toNat_lt_toNat (by decide : (0 : Int) < 7)).mpr h2
  simpa [weekdayOf] using h3

/-! ### Streak-machine lemmas -/

/-- The bound on the streak counters that the machine actually maintains:
`longest` is only raised when a streak is extended past one day, so after the
very first commit (and after every gap reset with `longest` still `0`) the
machine can have `current = 1 > longest = 0`; `current ≤ max longest 1` is
the inductive invariant. -/
theorem update_commit_streak_bound (s : CommitStreaks) (d : Int)
    (h : s.current ≤ max s.longest 1) :
    (update_commit_streak s d).current ≤
      max (update_commit_streak s d).longest 1 := by
  unfold update_commit_streak
  cases hl : s.last_commit_date with
  | none => simp
  | some last =>
    by_cases h1 : d - last = 1
    · simp only [h1, if_pos rfl]
      exact le_trans (le_max_right s.longest (s.current + 1)) (le_max_left _ _)
    · by_cases h2 : d - last > 1
      · simp [h1, h2]
      · simpa [h1, h2] using h

theorem applyCommits_streak_bound (calls : List (String × String × String × Timestamp))
    (st : Stats) (h : st.commit_streaks.current ≤ max st.commit_streaks.longest 1) :
    (applyCommits st calls).commit_streaks.current ≤
      max (applyCommits st calls).commit_streaks.longest 1 := by
  induction calls generalizing st with
  | nil => simpa [applyCommits] using h
  | cons c rest ih =>
    have hstep :
        (add_commit st c.1 c.2.1 c.2.2.1 c.2.2.2).commit_streaks =
          update_commit_streak st.commit_streaks c.2.2.2.day := rfl
    have h' := update_commit_streak_bound st.commit_streaks c.2.2.2.day h
    rw [← hstep] at h'
    simpa [applyCommits] using ih (add_commit st c.1 c.2.1 c.2.2.1 c.2.2.2) h'

/-! ### Budget-split lemmas -/

theorem allocLoop_spec (rand : Nat → Int → Int → Int)
    (hr : ∀ i lo hi, lo ≤ hi → lo ≤ rand i lo hi ∧ rand i lo hi ≤ hi) :
    ∀ (n : Nat) (remaining : Int) (idx : Nat), 1 ≤ n → (n : Int) ≤ remaining →
      (allocLoop rand n remaining idx).length = n ∧
      (allocLoop rand n remaining idx).sum = remaining ∧
      ∀ x ∈ allocLoop rand n remaining idx, 1 ≤ x := by
  intro n
  induction n with
  | zero => intro remaining idx h _; omega
  | succ m ih =>
    intro remaining idx _ hle
    cases m with
    | zero =>
      refine ⟨rfl, by simp [allocLoop], ?_⟩
      intro x hx
      have hx' : x = remaining := by simpa [allocLoop] using hx
      subst hx'
      exact_mod_cast hle
    | succ k =>
      have hrem : (k : Int) + 2 ≤ remaining := by
        have : ((k + 2 : Nat) : Int) ≤ remaining := hle
        push_cast at this
        omega
      have hmin : (1 : Int) ≤ min (remaining - ((k : Int) + 1)) (remaining - 1) :=
        le_min (by omega) (by omega)
      have hnot : ¬ min (remaining - ((k : Int) + 1)) (remaining - 1) ≤ 0 := by omega
      obtain ⟨hc1, hc2⟩ :=
        hr idx 1 (min (remaining - ((k : Int) + 1)) (remaining - 1)) hmin
      have hcub : rand idx 1 (min (remaining - ((k : Int) + 1)) (remaining - 1)) ≤
          remaining - ((k : Int) + 1) :=
        le_trans hc2 (min_le_left _ _)
      have hnext : ((k + 1 : Nat) : Int) ≤
          remaining - rand idx 1 (min (remaining - ((k : Int) + 1)) (remaining - 1)) := by
        push_cast
        omega
      obtain ⟨ihl, ihs, ihm⟩ :=
        ih (remaining - rand idx 1 (min (remaining - ((k : Int) + 1)) (remaining - 1)))
          (idx + 1) (by omega) hnext
      rw [show allocLoop rand (k + 2) remaining idx =
            rand idx 1 (min (remaining - ((k : Int) + 1)) (remaining - 1)) ::
              allocLoop rand (k + 1)
                (remaining - rand idx 1 (min (remaining - ((k : Int) + 1)) (remaining - 1)))
                (idx + 1) by
        simp only [allocLoop]
        rw [if_neg hnot]]
      refine ⟨by simpa using ihl, ?_, ?_⟩
      · rw [List.sum_cons, ihs]; ring
      · intro x hx
        rcases List.mem_cons.mp hx with h | h
        · subst h; exact hc1
        · exact ihm x h

/-! ### Claims -/

/-- C1 counterexample: the claim "`current <= longest` always holds after any
update, and `[2024-01-01, 2024-01-05]` yields `current == 1, longest == 1`"
is false on the code.  Starting from the fresh store and recording commits
dated 2024-01-01 (day 19723) and 2024-01-05 (day 19727), the store ends with
`current = 1` and `longest = 0` (the `days_diff == 1` branch is the only
place `longest` is ever raised), so `current > longest`. -/
theorem claim1_counterexample :
    (applyCommits initStats
        [("r", "f", "feature", ⟨19723, 10⟩),
         ("r", "f", "fix", ⟨19727, 10⟩)]).commit_streaks.current = 1 ∧
    (applyCommits initStats
        [("r", "f", "feature", ⟨19723, 10⟩),
         ("r", "f", "fix", ⟨19727, 10⟩)]).commit_streaks.longest = 0 ∧
    ¬ ((applyCommits initStats
        [("r", "f", "feature", ⟨19723, 10⟩),
         ("r", "f", "fix", ⟨19727, 10⟩)]).commit_streaks.current ≤
       (applyCommits initStats
        [("r", "f", "feature", ⟨19723, 10⟩),
         ("r", "f", "fix", ⟨19727, 10⟩)]).commit_streaks.longest) := by
  decide

/-- C1 (amended): for every sequence of recorded commits starting from the
fresh empty store, after every streak update `current <= max(longest, 1)`
holds (the code never lets `current` exceed `longest` once `longest` has
reached 1, but a streak of length 1 leaves `longest` at 0); in particular,
after the date sequence `[2024-01-01, 2024-01-05]` the store has
`current == 1` and `longest == 0`. -/
theorem claim1_streak_bound :
    (∀ calls : List (String × String × String × Timestamp),
      (applyCommits initStats calls).commit_streaks.current ≤
        max (applyCommits initStats calls).commit_streaks.longest 1) ∧
    (applyCommits initStats
        [("r", "f", "feature", ⟨19723, 10⟩),
         ("r", "f", "fix", ⟨19727, 10⟩)]).commit_streaks.current = 1 ∧
    (applyCommits initStats
        [("r", "f", "feature", ⟨19723, 10⟩),
         ("r", "f", "fix", ⟨19727, 10⟩)]).commit_streaks.longest = 0 := by
  refine ⟨fun calls => applyCommits_streak_bound calls initStats (by decide), by decide, by decide⟩

/-- C2: the streak transition rules of `update_commit_streak` on a new commit
date `d`: with `last_commit_date` unset, `current` is set to 1; when `d` is
exactly one day after the stored date, `current` is incremented and `longest`
becomes `max(longest, current)`; when `d` equals the stored date nothing but
the stored date changes; when `d` is more than one day after (`d = l + 2 + k`),
`current` resets to 1 with `longest` preserved; in every case
`last_commit_date` becomes `d`.  Consequently the consecutive date sequence
2024-01-01, 2024-01-02, 2024-01-03 (days 19723..19725) yields
`current == 3` and `longest == 3`. -/
theorem claim2_streak_transitions (c lg : Nat) (d l : Int) (k : Nat) :
    update_commit_streak ⟨c, lg, none⟩ d = ⟨1, lg, some d⟩ ∧
    update_commit_streak ⟨c, lg, some (d - 1)⟩ d = ⟨c + 1, max lg (c + 1), some d⟩ ∧
    update_commit_streak ⟨c, lg, some d⟩ d = ⟨c, lg, some d⟩ ∧
    update_commit_streak ⟨c, lg, some l⟩ (l + 2 + k) = ⟨1, lg, some (l + 2 + k)⟩ ∧
    applyStreakDates initCommitStreaks [19723, 19724, 19725] = ⟨3, 3, some 19725⟩ := by
  refine ⟨rfl, ?_, ?_, ?_, by decide⟩
  · simp [update_commit_streak]
  · simp [update_commit_streak]
  · have h1 : ¬ (l + 2 + (k : Int) - l = 1) := by omega
    have h2 : l + 2 + (k : Int) - l > 1 := by omega
    simp [update_commit_streak, h1, h2]

/-- C3 counterexample: the claim that *every* read failure of the persisted
store falls back to the fresh empty structure is false: `load_stats` only
catches `FileNotFoundError`, so a malformed JSON document raises
`json.JSONDecodeError` out of the constructor instead of returning the
fresh structure. -/
theorem claim3_counterexample :
    load_stats ReadOutcome.malformed ≠ Except.ok initStats := by
  simp [load_stats]

/-- C3 (amended): a missing statistics file falls back to the
freshly-initialized empty structure (all counts zero, empty mappings, streak
fields at defaults/null), and a well-formed document is returned as read;
but an unreadable or malformed persisted file raises an uncaught exception
(fatal), since only `FileNotFoundError` is handled. -/
theorem claim3_load_fallback :
    load_stats ReadOutcome.missing = Except.ok initStats ∧
    load_stats ReadOutcome.malformed = Except.error "JSONDecodeError" ∧
    load_stats ReadOutcome.unreadable = Except.error "OSError" ∧
    ∀ s, load_stats (ReadOutcome.found s) = Except.ok s :=
  ⟨rfl, rfl, rfl, fun _ => rfl⟩

/-- C9: a backdated commit, i.e. one whose calendar date `d` is strictly
earlier than the stored `last_commit_date = d + 1 + k`, leaves `current` and
`longest` unchanged (its `days_diff` is negative, matching neither the `== 1`
nor the `> 1` branch) but still overwrites `last_commit_date` with the
earlier date `d`: the stored date moves backwards. -/
theorem claim9_backdated (c lg : Nat) (d : Int) (k : Nat) :
    update_commit_streak ⟨c, lg, some (d + 1 + k)⟩ d = ⟨c, lg, some d⟩ := by
  have h1 : ¬ (d - (d + 1 + (k : Int)) = 1) := by omega
  have h2 : ¬ (d - (d + 1 + (k : Int)) > 1) := by omega
  simp [update_commit_streak, h1, h2]

/-- C5: for every total and `n` with `1 ≤ n ≤ total`, the budget-split
allocation (`splitTotal`, the commit-control loop of
`process_repositories`) produces a sequence of length `n` whose entries sum
exactly to `total` and are each `≥ 1`, for any draws the `randint(1, m)`
oracle makes within its bounds. -/
theorem claim5_splitTotal (rand : Nat → Int → Int → Int) (total : Int)
    (n : Nat) (h1 : 1 ≤ n) (h2 : (n : Int) ≤ total)
    (hr : ∀ i lo hi, lo ≤ hi → lo ≤ rand i lo hi ∧ rand i lo hi ≤ hi) :
    (splitTotal rand total n).length = n ∧
    (splitTotal rand total n).sum = total ∧
    ∀ x ∈ splitTotal rand total n, 1 ≤ x :=
  allocLoop_spec rand hr n total 0 h1 h2

/-- C5 witness: a budget of 5 split over 3 repositories (the low-end oracle
draws `[1, 1, 3]`) allocates exactly 5 commit units, each repository
receiving at least 1. -/
theorem claim5_splitTotal_witness :
    ((1 : Nat) ≤ 3 ∧ (3 : Int) ≤ 5) ∧
    splitTotal (fun _ lo _ => lo) 5 3 = [1, 1, 3] ∧
    (splitTotal (fun _ lo _ => lo) 5 3).length = 3 ∧
    (splitTotal (fun _ lo _ => lo) 5 3).sum = 5 :=
  ⟨⟨by decide, by decide⟩, by decide,
    (claim5_splitTotal (fun _ lo _ => lo) 5 3 (by decide) (by decide)
      (fun _ lo _ h => ⟨le_refl lo, h⟩)).1,
    (claim5_splitTotal (fun _ lo _ => lo) 5 3 (by decide) (by decide)
      (fun _ lo _ h => ⟨le_refl lo, h⟩)).2.1⟩

/-- C6: when every candidate repository fails the access predicate, the
scheduler aborts the whole batch before any mutation: the result is the
abort record regardless of the executor, allocation oracle or prompt
answers — no commit attempt, no `processed_repos` entry, no rollback — and
the abort is reported (`aborted = true`, the "Нет доступных репозиториев"
early return). -/
theorem claim6_no_available_aborts (checkAccess : String → Bool)
    (sample : List String → List String) (rand : Nat → Int → Int → Int)
    (randomCounts : Nat → Nat) (gitCommit : String → Nat → Bool)
    (useCommitControl : Bool) (totalCommitInput : Int) (keepChanges : Bool)
    (repositories : List String)
    (h : ∀ r ∈ repositories, checkAccess r = false) :
    processRepositories checkAccess sample rand randomCounts gitCommit
        useCommitControl totalCommitInput keepChanges repositories =
      { aborted := true, changesMade := 0, processedRepos := [], resets := [] } := by
  have hf : repositories.filter checkAccess = [] := by
    apply List.filter_eq_nil_iff.mpr
    intro a ha
    simp [h a ha]
  simp [processRepositories, hf]

/-- C6 witness: a single candidate failing the dry-run access check yields
the abort record. -/
theorem claim6_no_available_aborts_witness :
    (fun _ : String => false) "x" = false ∧
    processRepositories (fun _ => false) id (fun _ lo _ => lo) (fun _ => 1)
        (fun _ _ => true) true 5 false ["x"] =
      { aborted := true, changesMade := 0, processedRepos := [], resets := [] } :=
  ⟨rfl, claim6_no_available_aborts _ _ _ _ _ _ _ _ _ (by decide)⟩

/-- C7: when the caller discards the batch (`keepChanges = false`), the
rollback collaborator `reset_changes` is invoked exactly once per distinct
repository that received at least one successful commit — the rollback list
is duplicate-free and contains exactly the repositories appearing in
`processed_repos` — not once per commit. -/
theorem claim7_rollback_per_repo (checkAccess : String → Bool)
    (sample : List String → List String) (rand : Nat → Int → Int → Int)
    (randomCounts : Nat → Nat) (gitCommit : String → Nat → Bool)
    (useCommitControl : Bool) (totalCommitInput : Int) (keepChanges : Bool)
    (repositories : List String) (hk : keepChanges = false) :
    (processRepositories checkAccess sample rand randomCounts gitCommit
        useCommitControl totalCommitInput keepChanges repositories).resets.Nodup ∧
    ∀ r, r ∈ (processRepositories checkAccess sample rand randomCounts gitCommit
          useCommitControl totalCommitInput keepChanges repositories).resets ↔
        r ∈ (processRepositories checkAccess sample rand randomCounts gitCommit
          useCommitControl totalCommitInput keepChanges repositories).processedRepos := by
  subst hk
  by_cases he : (repositories.filter checkAccess).isEmpty = true
  · simp [processRepositories, he]
  · by_cases hp : 0 <
        (execRepos gitCommit
          ((sample (repositories.filter checkAccess)).zip
            (if useCommitControl then
              splitTotal rand totalCommitInput
                (sample (repositories.filter checkAccess)).length
            else (List.range (sample (repositories.filter checkAccess)).length).map
              fun i => (randomCounts i : Int)))).length
    · simp [processRepositories, he, hp, List.nodup_dedup, List.mem_dedup]
    · have hz := List.length_eq_zero.mp (Nat.eq_zero_of_not_pos hp)
      simp [processRepositories, he, hp, hz]

/-- C7 witness: a batch of 4 commits across 2 repositories, then discarded,
triggers exactly 2 rollback invocations (one per distinct repository). -/
theorem claim7_rollback_per_repo_witness :
    (processRepositories (fun _ => true) id (fun _ lo _ => lo + 1) (fun _ => 1)
        (fun _ _ => true) true 4 false ["a", "b"]).changesMade = 4 ∧
    (processRepositories (fun _ => true) id (fun _ lo _ => lo + 1) (fun _ => 1)
        (fun _ _ => true) true 4 false ["a", "b"]).resets = ["a", "b"] ∧
    ("a" ∈ (processRepositories (fun _ => true) id (fun _ lo _ => lo + 1) (fun _ => 1)
        (fun _ _ => true) true 4 false ["a", "b"]).resets ↔
     "a" ∈ (processRepositories (fun _ => true) id (fun _ lo _ => lo + 1) (fun _ => 1)
        (fun _ _ => true) true 4 false ["a", "b"]).processedRepos) :=
  ⟨by decide, by decide,
    (claim7_rollback_per_repo (fun _ => true) id (fun _ lo _ => lo + 1) (fun _ => 1)
      (fun _ _ => true) true 4 false ["a", "b"] rfl).2 "a"⟩

/-- C8: for every readable content string the complexity score equals
`lines*0.1 + functions*2 + classes*3 + conditionals*1.5 + loops*2` with the
counts coming from the pattern scan; unreadable content scores 0, empty
content scores 0, and `exampleContent` — exactly 10 lines, 1 counted
function definition, no counted classes, conditionals or loops — scores
`10*0.1 + 1*2 = 3.0`. -/
theorem claim8_complexity_score (c : List Char) :
    calculate_file_complexity (some c) =
      (countLines c : ℚ) * (1 / 10) + (countFunctions c : ℚ) * 2 +
      (countClasses c : ℚ) * 3 + (countConditionals c : ℚ) * (3 / 2) +
      (countLoops c : ℚ) * 2 ∧
    calculate_file_complexity none = 0 ∧
    calculate_file_complexity (some []) = 0 ∧
    countLines exampleContent = 10 ∧
    countFunctions exampleContent = 1 ∧
    countClasses exampleContent = 0 ∧
    countConditionals exampleContent = 0 ∧
    countLoops exampleContent = 0 ∧
    calculate_file_complexity (some exampleContent) = 3 := by
  have hL : countLines exampleContent = 10 := by decide
  have hF : countFunctions exampleContent = 1 := by decide
  have hC : countClasses exampleContent = 0 := by decide
  have hI : countConditionals exampleContent = 0 := by decide
  have hO : countLoops exampleContent = 0 := by decide
  have hform : ∀ c : List Char, calculate_file_complexity (some c) =
      (countLines c : ℚ) * (1 / 10) + (countFunctions c : ℚ) * 2 +
      (countClasses c : ℚ) * 3 + (countConditionals c : ℚ) * (3 / 2) +
      (countLoops c : ℚ) * 2 := fun _ => rfl
  refine ⟨hform c, rfl, ?_, hL, hF, hC, hI, hO, ?_⟩
  · rw [hform [], show countLines [] = 0 from rfl,
      show countFunctions [] = 0 from rfl, show countClasses [] = 0 from rfl,
      show countConditionals [] = 0 from rfl, show countLoops [] = 0 from rfl]
    norm_num
  · rw [hform exampleContent, hL, hF, hC, hI, hO]
    norm_num

/-- The fields `recordCommit` never writes: every repository's
`commit_types` mapping is empty and every file's `changes_per_month` mapping
is empty with `complexity_score` still 0. -/
def UntouchedFields (st : Stats) : Prop :=
  ∀ p ∈ st.repositories,
    p.2.commit_types = [] ∧
    ∀ q ∈ p.2.files, q.2.changes_per_month = [] ∧ q.2.complexity_score = 0

theorem untouched_add_commit (st : Stats) (r f c : String) (ts : Timestamp)
    (h : UntouchedFields st) : UntouchedFields (add_commit st r f c ts) := by
  have hrs0 : ((alFind st.repositories r).getD defaultRepoStats).commit_types = [] := by
    cases hf : alFind st.repositories r with
    | none => simp [defaultRepoStats]
    | some rs => simpa using (h _ (alFind_mem _ _ _ hf)).1
  have hrs0f : ∀ q ∈ ((alFind st.repositories r).getD defaultRepoStats).files,
      q.2.changes_per_month = [] ∧ q.2.complexity_score = 0 := by
    cases hf : alFind st.repositories r with
    | none => intro q hq; simp [defaultRepoStats] at hq
    | some rs => intro q hq; exact (h _ (alFind_mem _ _ _ hf)).2 q (by simpa using hq)
  have hfs0 :
      ((alFind ((alFind st.repositories r).getD defaultRepoStats).files f).getD
        defaultFileStats).changes_per_month = [] ∧
      ((alFind ((alFind st.repositories r).getD defaultRepoStats).files f).getD
        defaultFileStats).complexity_score = 0 := by
    cases hg : alFind ((alFind st.repositories r).getD defaultRepoStats).files f with
    | none => simp [defaultFileStats]
    | some fs => simpa using hrs0f _ (alFind_mem _ _ _ hg)
  intro p hp
  simp only [add_commit] at hp
  rcases mem_alInsert _ _ _ p hp with h1 | h1
  · exact h p h1
  · refine ⟨?_, ?_⟩
    · rw [h1]; exact hrs0
    · intro q hq
      rw [h1] at hq
      rcases mem_alInsert _ _ _ q hq with h2 | h2
      · exact hrs0f q h2
      · exact ⟨by rw [h2]; exact hfs0.1, by rw [h2]; exact hfs0.2⟩

/-- C10: `recordCommit` never writes `commit_types`, `changes_per_month` or
`complexity_score`: after any sequence of `add_commit` calls starting from
the fresh empty store, every repository's `commit_types` mapping is empty,
every file's `changes_per_month` mapping is empty, and every file's
`complexity_score` is 0 — the `commit_type` argument is ignored and the
complexity computation is never stored by `add_commit`. -/
theorem claim10_untouched_by_add_commit
    (calls : List (String × String × String × Timestamp)) :
    UntouchedFields (applyCommits initStats calls) := by
  have key : ∀ (cs : List (String × String × String × Timestamp)) (st : Stats),
      UntouchedFields st → UntouchedFields (applyCommits st cs) := by
    intro cs
    induction cs with
    | nil => intro st h; simpa [applyCommits] using h
    | cons cc rest ih =>
      intro st h
      simpa [applyCommits] using
        ih _ (untouched_add_commit st cc.1 cc.2.1 cc.2.2.1 cc.2.2.2 h)
  exact key calls initStats (by intro p hp; simp [initStats] at hp)

/-- C4: one `add_commit(repoId, filePath, changeType, timestamp)` call with a
well-formed timestamp and well-formed bucket arrays: the repository entry
(zeroed `defaultRepoStats` if missing) gets `total_commits + 1` and
`last_commit = timestamp`; the file entry (created if missing) gets
`commits + 1` and `last_modified = timestamp`; the timestamp's hour bucket
and weekday bucket are each incremented; other repositories and other files
are untouched; the global `total_commits` is incremented; the full store is
then persisted (`save_stats` overwrites the document with the new state);
and two calls for the same repository starting from the fresh store yield
`total_commits == 2`. -/
theorem claim4_add_commit_effects (st : Stats) (repo fp ct : String)
    (ts : Timestamp) (doc : Option Stats) (hwf : WFStats st)
    (hh : ts.hour < 24) :
    ∃ rs', alFind (add_commit st repo fp ct ts).repositories repo = some rs' ∧
      rs'.total_commits =
        ((alFind st.repositories repo).getD defaultRepoStats).total_commits + 1 ∧
      rs'.last_commit = some ts ∧
      (∃ fs', alFind rs'.files fp = some fs' ∧
        fs'.commits =
          ((alFind ((alFind st.repositories repo).getD defaultRepoStats).files fp).getD
            defaultFileStats).commits + 1 ∧
        fs'.last_modified = some ts) ∧
      rs'.active_hours.getD ts.hour 0 =
        ((alFind st.repositories repo).getD defaultRepoStats).active_hours.getD ts.hour 0 + 1 ∧
      rs'.active_days.getD (weekdayOf ts) 0 =
        ((alFind st.repositories repo).getD defaultRepoStats).active_days.getD (weekdayOf ts) 0 + 1 ∧
      (∀ r', r' ≠ repo →
        alFind (add_commit st repo fp ct ts).repositories r' = alFind st.repositories r') ∧
      (∀ f', f' ≠ fp →
        alFind rs'.files f' =
          alFind ((alFind st.repositories repo).getD defaultRepoStats).files f') ∧
      (add_commit st repo fp ct ts).total_commits = st.total_commits + 1 ∧
      add_commit_store ⟨st, doc⟩ repo fp ct ts =
        ⟨add_commit st repo fp ct ts, some (add_commit st repo fp ct ts)⟩ ∧
      (∃ rs₂, alFind ((add_commit (add_commit initStats repo fp ct ts)
            repo fp ct ts).repositories) repo = some rs₂ ∧
        rs₂.total_commits = 2) := by
  have hlen24 :
      ((alFind st.repositories repo).getD defaultRepoStats).active_hours.length = 24 := by
    cases hf : alFind st.repositories repo with
    | none => simp [defaultRepoStats]
    | some rs => simpa using (hwf _ (alFind_mem _ _ _ hf)).1
  have hlen7 :
      ((alFind st.repositories repo).getD defaultRepoStats).active_days.length = 7 := by
    cases hf : alFind st.repositories repo with
    | none => simp [defaultRepoStats]
    | some rs => simpa using (hwf _ (alFind_mem _ _ _ hf)).2
  refine ⟨_, alFind_alInsert_self _ _ _, rfl, rfl,
    ⟨_, alFind_alInsert_self _ _ _, rfl, rfl⟩, ?_, ?_,
    fun r' hne => alFind_alInsert_ne _ _ _ _ hne,
    fun f' hne => alFind_alInsert_ne _ _ _ _ hne,
    rfl, rfl, ?_⟩
  · exact incrAt_getD _ _ (by rw [hlen24]; exact hh)
  · exact incrAt_getD _ _ (by rw [hlen7]; exact weekdayOf_lt ts)
  · refine ⟨_, alFind_alInsert_self _ _ _, ?_⟩
    simp [add_commit, initStats, alInsert, alFind, defaultRepoStats,
      alFind_alInsert_self]

/-- C4 witness: recording one commit into the fresh store (well-formed
timestamp 2024-01-01 12:xx) bumps the global total to 1. -/
theorem claim4_add_commit_effects_witness :
    (add_commit initStats "r" "f" "feature" ⟨19723, 12⟩).total_commits = 1 := by
  obtain ⟨rs', -, -, -, -, -, -, -, -, htot, -, -⟩ :=
    claim4_add_commit_effects initStats "r" "f" "feature" ⟨19723, 12⟩ none
      (by intro p hp; simp [initStats] at hp) (by decide)
  simpa [initStats] using htot

end GitGenie
